import Mathlib

/-!
Verification of the `ApiClient` / `EntityCrudApi` REST helper
(src/index.js, src/lib/EntityCrudApi.js) against its specification.

The JavaScript code is shallowly embedded: JS runtime values are modelled by
the inductive type `JSValue`, plain objects by insertion-ordered association
lists, promises by already-settled outcomes (`promiseOk` / `promiseErr`),
and the asynchronous control flow of bluebird promises by the `Except` monad
(a rejection short-circuits, matching `.then` chains on settled promises).
The external collaborators (lodash, the WHATWG URL class, the form-data
package, axios) are modelled by Lean functions that follow their documented
behaviour at the call sites the code uses; axios itself is abstracted as an
oracle `JSValue → Except String JSValue` passed to the request executor.
-/

/-- A JavaScript runtime value, as used by the client code.
`promiseOk`/`promiseErr` are already-settled promises (the only state that
matters once `_deepResolve` awaits them).  `func tag` is a function value;
its behaviour is supplied externally through an environment keyed by `tag`,
which also lets a stateful closure be modelled (see `requestRun`).
`formData` is an instance of the form-data package: an ordered list of
appended (name, value) entries. -/
inductive JSValue where
  | null
  | undef
  | bool (b : Bool)
  | num (n : Int)
  | str (s : String)
  | date (iso : String)
  | arr (xs : List JSValue)
  | obj (fields : List (String × JSValue))
  | formData (entries : List (String × JSValue))
  | promiseOk (v : JSValue)
  | promiseErr (e : String)
  | func (tag : Nat)

/-- lodash `_.isNil`: true exactly for `null` and `undefined`. -/
def isNil : JSValue → Bool
  | .null => true
  | .undef => true
  | _ => false

/-- lodash `_.isPlainObject`: true for plain objects only (class instances
such as FormData or Promise, arrays and functions are not plain). -/
def isPlainObject : JSValue → Bool
  | .obj _ => true
  | _ => false

/-- The predicate of the `_.takeRightWhile` lambda in `_parseArgs`
(src/lib/EntityCrudApi.js line 176): `_.isPlainObject(arg) || _.isNil(arg)`. -/
def isConfigArg (v : JSValue) : Bool := isPlainObject v || isNil v

/-- The test `data instanceof FormData` (src/lib/EntityCrudApi.js line 245). -/
def isFormDataInstance : JSValue → Bool
  | .formData _ => true
  | _ => false

/-- Key lookup in a plain object (own properties, first match).
JS plain objects here carry each key at most once, in insertion order. -/
def getKey : List (String × JSValue) → String → Option JSValue
  | [], _ => none
  | (k, v) :: rest, key => if k = key then some v else getKey rest key

/-- lodash `_.set` restricted to a single key on an object: replaces the
value in place when the key exists, appends the key otherwise. -/
def setKey : List (String × JSValue) → String → JSValue → List (String × JSValue)
  | [], key, v => [(key, v)]
  | (k, w) :: rest, key, v =>
    if k = key then (k, v) :: rest else (k, w) :: setKey rest key v

/-- lodash `_.has` on a plain object. -/
def hasKey (fs : List (String × JSValue)) (k : String) : Bool :=
  (getKey fs k).isSome

/-- lodash `_.get(v, k)` with no default: `undefined` when the key is
missing or the receiver is not an object. -/
def jsGet (v : JSValue) (k : String) : JSValue :=
  match v with
  | .obj fs => match getKey fs k with | some w => w | none => JSValue.undef
  | _ => JSValue.undef

/-- lodash `_.get(v, k, dflt)`: the default replaces `undefined` only. -/
def jsGetD (v : JSValue) (k : String) (dflt : JSValue) : JSValue :=
  match jsGet v k with
  | .undef => dflt
  | w => w

/-- lodash `_.set` on a `JSValue` receiver (no-op on non-objects, like lodash on
primitives: it cannot attach properties to them in a lasting way). -/
def setKeyJS (v : JSValue) (k : String) (w : JSValue) : JSValue :=
  match v with
  | .obj fs => .obj (setKey fs k w)
  | other => other

/-- lodash `_.set(config, [k1, k2], v)`: creates or replaces the
intermediate object at `k1` when it is not already a plain object. -/
def setPath2 (config : JSValue) (k1 k2 : String) (v : JSValue) : JSValue :=
  match config with
  | .obj fs =>
    let inner := match getKey fs k1 with
      | some (.obj g) => g
      | _ => []
    .obj (setKey fs k1 (.obj (setKey inner k2 v)))
  | other => other

/-- The `value === undefined` test `_.defaults` applies to existing keys. -/
def isUndef : JSValue → Bool
  | .undef => true
  | _ => false

/-- lodash `_.defaults(dest, src)`: for each own key of `src` in order,
assign it into `dest` when `dest` lacks the key or holds `undefined`. -/
def defaultsFields : List (String × JSValue) → List (String × JSValue) →
    List (String × JSValue)
  | fs, [] => fs
  | fs, (k, v) :: rest =>
    defaultsFields
      (match getKey fs k with
        | some u => if isUndef u then setKey fs k v else fs
        | none => fs ++ [(k, v)]) rest

/-- lodash `_.defaults` on a `JSValue` receiver (always an object at the call site). -/
def defaultsJS (config : JSValue) (src : List (String × JSValue)) : JSValue :=
  match config with
  | .obj fs => .obj (defaultsFields fs src)
  | v => v

/-- lodash `_.assign({}, ...sources)`: shallow-copies own keys of each
object source in order into a fresh object; nil sources contribute nothing. -/
def assignFresh (objs : List JSValue) : JSValue :=
  .obj (objs.foldl
    (fun acc v =>
      match v with
      | .obj fs => fs.foldl (fun a kv => setKey a kv.1 kv.2) acc
      | _ => acc) [])

/-- lodash `_.takeRightWhile`. -/
def takeRightWhile (p : JSValue → Bool) (l : List JSValue) : List JSValue :=
  (l.reverse.takeWhile p).reverse

/-- ASCII lower-casing of one character (what `_.toLower` and
`String.prototype.toLowerCase` do on the ASCII header names and method
names this code compares). -/
def asciiLowerChar (c : Char) : Char :=
  if 'A' ≤ c ∧ c ≤ 'Z' then Char.ofNat (c.toNat + 32) else c

/-- ASCII lower-casing of a string. -/
def asciiLower (s : String) : String :=
  String.mk (s.data.map asciiLowerChar)

mutual
/-- lodash `_.flattenDeep` applied to one element: arrays are flattened
recursively, anything else is kept as a single element. -/
def flattenDeep : JSValue → List JSValue
  | .arr xs => flattenDeepList xs
  | v => [v]

/-- lodash `_.flattenDeep` over the elements of an array. -/
def flattenDeepList : List JSValue → List JSValue
  | [] => []
  | v :: rest => flattenDeep v ++ flattenDeepList rest
end

/-- Element conversion of `Array.prototype.join` (used by `_.join`):
`null`/`undefined` become the empty string, other primitives their usual
string form. -/
def jsJoinElem : JSValue → String
  | .null => ""
  | .undef => ""
  | .str s => s
  | .num n => toString n
  | .bool b => if b then "true" else "false"
  | .date iso => iso
  | _ => ""

/-- Join a list of strings with `/` (the separator `_buildUrl` passes). -/
def joinSegs : List String → String
  | [] => ""
  | [s] => s
  | s :: rest => s ++ "/" ++ joinSegs rest

/-- Split a character list at a separator character (used to model how the
URL parser cuts a path into segments). -/
def splitChar (sep : Char) : List Char → List Char → List String
  | [], acc => [String.mk acc.reverse]
  | c :: rest, acc =>
    if c = sep then String.mk acc.reverse :: splitChar sep rest []
    else splitChar sep rest (c :: acc)

/-- A parsed WHATWG URL record, restricted to the special-scheme
host-bearing URLs this client builds: a scheme, a host, an optional port
(already normalised: `none` when it equals the default port of the scheme) and
a path as a list of segments (`/api/` is `["api", ""]`). -/
structure URLRec where
  scheme : String
  host : String
  port : Option Nat
  path : List String

/-- Default ports of the WHATWG special schemes the client can be
configured with. -/
def defaultPort : String → Option Nat
  | "http" => some 80
  | "https" => some 443
  | "ws" => some 80
  | "wss" => some 443
  | "ftp" => some 21
  | _ => none

/-- WHATWG port normalisation: parsing `scheme://host:port` sets the port
of the URL to null when it equals the default port of the scheme (this is why
`new URL("https://host:443")` serialises without the `:443`). -/
def normalizePort (scheme : String) (p : Nat) : Option Nat :=
  if defaultPort scheme = some p then none else some p

/-- The WHATWG path state machine over already-split segments: `.` is
dropped (or contributes a trailing empty segment when final), `..` pops
the previous segment, everything else is appended. -/
def processSegs (path : List String) : List String → List String
  | [] => path
  | [s] =>
    if s = "." then path ++ [""]
    else if s = ".." then path.dropLast ++ [""]
    else path ++ [s]
  | s :: rest =>
    if s = "." then processSegs path rest
    else if s = ".." then processSegs path.dropLast rest
    else processSegs (path ++ [s]) rest

/-- Resolution `new URL(rel, base)` for the two reference shapes `_buildUrl` produces:
a path-absolute string (leading `/`) replaces the base path, any other
string resolves relative to the base path with its last segment removed.
Scheme, host and port are taken from the base. -/
def resolveRel (rel : String) (base : URLRec) : URLRec :=
  match rel.data with
  | '/' :: rest => { base with path := processSegs [] (splitChar '/' rest []) }
  | _ => { base with path := processSegs base.path.dropLast (splitChar '/' rel.data []) }

/-- WHATWG URL serialisation for the URLs built here: the port is omitted
when it is null (normalised away), the path segments are joined by `/`. -/
def serializeURL (u : URLRec) : String :=
  u.scheme ++ "://" ++ u.host ++
    (match u.port with | some p => ":" ++ toString p | none => "") ++
    "/" ++ joinSegs u.path

/-- The function value the client stores as `this._authCallback`.
`ownKeys` models the own enumerable property names of the function object:
lodash `_.isEmpty(fn)` iterates exactly those and is therefore `true` for
every plain function (functions have no own enumerable properties unless
the caller attached some). `run` is the callback body, mutating and
returning the request config. -/
structure AuthCallback where
  ownKeys : List String
  run : JSValue → JSValue

/-- The `ApiClient` instance state after construction: the four base-URL
components, the optional `_authCallback` and the `_credentials` plain
object (`{token}`, `{username, password}`, `{authHeaders}` or `{}`). -/
structure ApiClient where
  protocol : String
  hostname : String
  port : Nat
  basePath : String
  authCallback : Option AuthCallback
  credentials : List (String × JSValue)

/-- Parsing `new URL(this._basePath, protocol + "//" + hostname + ":" + port)`
collapsed: the origin string the template builds is parsed back into its
components.  It only parses when the stored protocol ends in `:` (as the
constructor stores it); the port is WHATWG-normalised.  Hosts containing
reserved URL characters are outside the model. -/
def parseOrigin (c : ApiClient) : Option URLRec :=
  match c.protocol.data.reverse with
  | ':' :: rest =>
    let scheme := String.mk rest.reverse
    some { scheme := scheme, host := c.hostname,
           port := normalizePort scheme c.port, path := [] }
  | _ => none

/-- Method `_buildUrl(urlSlugs)` (src/lib/EntityCrudApi.js lines 119-125): parse
the origin, resolve the base path against it, flatten the slug arguments
deeply, join them with `/`, prefix `./` and resolve against the base URL. -/
def buildUrl (c : ApiClient) (urlSlugs : List JSValue) : Option String :=
  match parseOrigin c with
  | none => none
  | some origin =>
    let base := resolveRel c.basePath origin
    let rel := "./" ++ joinSegs ((flattenDeepList urlSlugs).map jsJoinElem)
    some (serializeURL (resolveRel rel base))


mutual
/-- Method `ApiClient._deepResolve` (src/lib/EntityCrudApi.js lines 377-385) on a
settled-promise world: plain objects resolve each value (`Promise.props`),
arrays resolve each element in order (`Promise.map`), and any other value
goes through `Promise.resolve`, which adopts the state of an
already-settled promise and passes everything else through.  A rejection
anywhere rejects the whole resolution with that failure; the model keeps
the first rejection in traversal order (all promises are already
settled).  Note the else branch does not recurse into the value of a
fulfilled promise. -/
def deepResolve : JSValue → Except String JSValue
  | .obj fs => (deepResolveFields fs).map .obj
  | .arr xs => (deepResolveList xs).map .arr
  | .promiseOk v => .ok v
  | .promiseErr e => .error e
  | v => .ok v

/-- The call `Promise.props(_.mapValues(object, _deepResolve))`. -/
def deepResolveFields : List (String × JSValue) →
    Except String (List (String × JSValue))
  | [] => .ok []
  | (k, v) :: rest =>
    match deepResolve v with
    | .error e => .error e
    | .ok w =>
      match deepResolveFields rest with
      | .error e => .error e
      | .ok ws => .ok ((k, w) :: ws)

/-- The call `Promise.map(object, _deepResolve)`. -/
def deepResolveList : List JSValue → Except String (List JSValue)
  | [] => .ok []
  | v :: rest =>
    match deepResolve v with
    | .error e => .error e
    | .ok w =>
      match deepResolveList rest with
      | .error e => .error e
      | .ok ws => .ok (w :: ws)
end

mutual
/-- The first rejected promise reachable from a value through plain
objects and arrays, in the traversal order of `_deepResolve`.  Promises
are leaves of this structure: a rejection hidden inside the value of an
already-fulfilled promise is not reachable, exactly as `_deepResolve`
does not recurse into fulfilled promise values.  This predicate only
states which inputs the resolver claims quantify over; the behaviour
itself is `deepResolve`. -/
def firstRejection : JSValue → Option String
  | .obj fs => firstRejectionFields fs
  | .arr xs => firstRejectionList xs
  | .promiseErr e => some e
  | _ => none

/-- Predicate `firstRejection` over object fields. -/
def firstRejectionFields : List (String × JSValue) → Option String
  | [] => none
  | (_, v) :: rest =>
    match firstRejection v with
    | some e => some e
    | none => firstRejectionFields rest

/-- Predicate `firstRejection` over array elements. -/
def firstRejectionList : List JSValue → Option String
  | [] => none
  | v :: rest =>
    match firstRejection v with
    | some e => some e
    | none => firstRejectionList rest
end

/-- The apostrophe character, written by code point to keep the source
free of quote characters; used for the bracket-path quoting below. -/
def squoteChar : Char := Char.ofNat 39

/-- The object-property key of the serializer: path, open bracket, quoted
property name, close bracket when the path is non-empty, the bare
property name otherwise
(src/lib/EntityCrudApi.js line 414). -/
def bracketKey (path property : String) : String :=
  if path = "" then property
  else path ++ "[" ++ String.singleton squoteChar ++ property ++
    String.singleton squoteChar ++ "]"

mutual
/-- Method `ApiClient._serializeObjectToFormData(object, formData, path)`
(src/lib/EntityCrudApi.js lines 387-422) after its two nil-defaults:
`undefined` is a no-op; booleans append the literal strings true/false;
an empty array appends one empty-string entry under `path[]`; a
non-empty array recurses into each element under the shared key
`path[]`; dates append their ISO string; plain objects recurse per
property under `bracketKey`; anything else is appended as-is. -/
def serializeObjectToFormData (object : JSValue)
    (fd : List (String × JSValue)) (path : String) :
    List (String × JSValue) :=
  match object with
  | .undef => fd
  | .bool b => fd ++ [(path, .str (if b then "true" else "false"))]
  | .arr [] => fd ++ [(path ++ "[]", .str "")]
  | .arr (x :: xs) => serializeFormDataArr (x :: xs) fd (path ++ "[]")
  | .date iso => fd ++ [(path, .str iso)]
  | .obj fs => serializeFormDataObj fs fd path
  | v => fd ++ [(path, v)]

/-- The `_.each` over array elements in the serializer. -/
def serializeFormDataArr : List JSValue → List (String × JSValue) →
    String → List (String × JSValue)
  | [], fd, _ => fd
  | x :: xs, fd, key => serializeFormDataArr xs (serializeObjectToFormData x fd key) key

/-- The `_.each` over object properties in the serializer. -/
def serializeFormDataObj : List (String × JSValue) →
    List (String × JSValue) → String → List (String × JSValue)
  | [], fd, _ => fd
  | (p, v) :: fs, fd, path =>
    serializeFormDataObj fs (serializeObjectToFormData v fd (bracketKey path p)) path
end

/-- The strict `===` comparison `contentTypeHeader === "multipart/form-data"`
(src/lib/EntityCrudApi.js line 244): true only for a string value equal to
that exact, case-sensitive string. -/
def isMultipartValue : JSValue → Bool
  | .str s => s = "multipart/form-data"
  | _ => false

/-- Lines 241-242 of src/lib/EntityCrudApi.js: find the first key of
`config.headers` whose lower-casing is `content-type`, and read its
value (`undefined` when no key matches or there are no headers). -/
def contentTypeHeaderValue (config : JSValue) : JSValue :=
  let headers := jsGet config "headers"
  let keys := match headers with
    | .obj fs => fs.map (fun (kv : String × JSValue) => kv.1)
    | _ => []
  match keys.find? (fun k => asciiLower k = "content-type") with
  | some k => jsGet headers k
  | none => JSValue.undef

/-- The headers `FormData#getHeaders()` returns: a content-type header
declaring the multipart boundary.  The real boundary is random; the model
fixes it, which no claim depends on. -/
def formDataHeadersModel : List (String × JSValue) :=
  [("content-type", .str "multipart/form-data; boundary=--------------------------modelboundary")]

mutual
/-- lodash `_.merge(dst, src)` restricted to object sources as used for the
header merge: `undefined` source values are skipped, plain-object values
merge recursively, anything else overrides. -/
def mergeFields : List (String × JSValue) → List (String × JSValue) →
    List (String × JSValue)
  | dfs, [] => dfs
  | dfs, (k, v) :: rest => mergeFields (mergeOne dfs k v) rest

/-- One key of a `_.merge` step. -/
def mergeOne (dfs : List (String × JSValue)) (k : String) :
    JSValue → List (String × JSValue)
  | .undef => dfs
  | .obj svs =>
    (match getKey dfs k with
      | some (.obj dvs) => setKey dfs k (.obj (mergeFields dvs svs))
      | _ => setKey dfs k (.obj svs))
  | v => setKey dfs k v
end

/-- The call `_.merge({}, _.get(config, "headers", {}), formDataHeaders)`
(src/lib/EntityCrudApi.js line 251).  A non-object headers value
contributes nothing, as for primitive lodash merge sources. -/
def mergeHeaders (h : JSValue) (fd : List (String × JSValue)) : JSValue :=
  let base := match h with
    | .obj fs => fs
    | _ => []
  .obj (mergeFields base fd)

/-- Lines 241-252 of src/lib/EntityCrudApi.js, the form-data step of
`_request`: when the (case-insensitively found) content-type header value
is strictly `"multipart/form-data"` and `config.data` is non-nil, data
that is not already a FormData instance is serialized and written back,
and the FormData headers are merged over the config headers. -/
def applyFormData (config : JSValue) : JSValue :=
  if isMultipartValue (contentTypeHeaderValue config)
      && !(isNil (jsGet config "data")) then
    match jsGet config "data" with
    | .formData _ =>
      setKeyJS config "headers"
        (mergeHeaders (jsGetD config "headers" (.obj [])) formDataHeadersModel)
    | d =>
      let config2 := setKeyJS config "data"
        (.formData (serializeObjectToFormData d [] ""))
      setKeyJS config2 "headers"
        (mergeHeaders (jsGetD config2 "headers" (.obj [])) formDataHeadersModel)
  else config

/-- The JS string interpolation used for `Bearer ${token}`; credentials
are strings in every construction path, the other cases approximate JS
coercion and are never exercised by the claims. -/
def jsToDisplayString : JSValue → String
  | .str s => s
  | .num n => toString n
  | .bool b => if b then "true" else "false"
  | .null => "null"
  | .undef => "undefined"
  | _ => "[object Object]"

/-- The `_.each(authHeaders, ...)` loop of `_authenticate`: copy each
custom header onto `config.headers`. -/
def applyAuthHeaders : JSValue → List (String × JSValue) → JSValue
  | config, [] => config
  | config, (h, v) :: rest => applyAuthHeaders (setPath2 config "headers" h v) rest

/-- The internal credential logic of `_authenticate`
(src/lib/EntityCrudApi.js lines 143-155): token sets the Authorization
bearer header, username+password set `auth`, authHeaders are copied, and
with no matching credential key the config is returned unmodified. -/
def internalAuth (c : ApiClient) (config : JSValue) : JSValue :=
  if hasKey c.credentials "token" then
    setPath2 config "headers" "Authorization"
      (.str ("Bearer " ++ jsToDisplayString (jsGet (.obj c.credentials) "token")))
  else if hasKey c.credentials "username" && hasKey c.credentials "password" then
    setKeyJS config "auth"
      (.obj [("username", jsGet (.obj c.credentials) "username"),
             ("password", jsGet (.obj c.credentials) "password")])
  else if hasKey c.credentials "authHeaders" then
    match jsGet (.obj c.credentials) "authHeaders" with
    | .obj hs => applyAuthHeaders config hs
    | _ => config
  else config

/-- Method `ApiClient._authenticate(config)` (src/lib/EntityCrudApi.js lines
133-159).  The callback branch is guarded by `!_.isEmpty(this._authCallback)`:
`_.isEmpty` of a missing callback is true, and `_.isEmpty` of a function
iterates the own enumerable properties of the function object — so the branch
is taken only when the stored callback carries own enumerable properties
(`ownKeys` non-empty); a plain function falls through to the internal
credential logic. -/
def authenticate (c : ApiClient) (config : JSValue) : JSValue :=
  let config := if isNil config then JSValue.obj [] else config
  match c.authCallback with
  | none => internalAuth c config
  | some cb => if cb.ownKeys.isEmpty then internalAuth c config else cb.run config

/-- The call `_.get(config, "method", defaultMethod).toLowerCase()`
(src/lib/EntityCrudApi.js line 198): the default replaces only a missing
or undefined method; a non-string method makes `.toLowerCase()` throw. -/
def getMethodString (config : JSValue) (dflt : String) : Except String String :=
  match jsGet config "method" with
  | .undef => .ok (asciiLower dflt)
  | .str s => .ok (asciiLower s)
  | _ => .error "TypeError: toLowerCase is not a function"

/-- The value `config = {}` when nil, otherwise the value itself — the shape of the
`if (!_.isNil(...))` assignments around the initial `config = {}`. -/
def configOrEmpty (v : JSValue) : JSValue :=
  if isNil v then .obj [] else v

/-- The disjunction on src/lib/EntityCrudApi.js line 201:
`method === "put" || method === "post" || method === "patch"`. -/
def isBodyMethod (meth : String) : Bool :=
  meth = "put" || meth = "post" || meth = "patch"

/-- Lines 219-223 of src/lib/EntityCrudApi.js: re-default a nil config to
`{}` and `_.defaults(config, {url, method, data, params})` — note the
`method` here is the outer variable still holding the default
method, because line 198 declared a shadowing `let method`. -/
def applyConfigDefaults (url method : String) (data params config : JSValue) :
    JSValue :=
  defaultsJS (configOrEmpty config)
    [("url", .str url), ("method", .str method), ("data", data), ("params", params)]

/-- The body of the `.then` in `_parseArgs` (src/lib/EntityCrudApi.js
lines 183-224), after the config-object arguments have been resolved:
build the URL, then dispatch on the number of config-object arguments.
One argument: it becomes the config (if non-nil).  Two: the second (if
non-nil) becomes the config, the first is routed to data or params by
the lower-cased config method.  Otherwise (zero, or three and more):
first to params, second to data, the rest shallow-merged into the
config.  Finally the computed url/method/data/params are filled in as
defaults. -/
def parseArgsResolved (c : ApiClient) (urlArgs : List JSValue) (numCfg : Nat)
    (resolved : List JSValue) (defaultMethod : String) : Except String JSValue :=
  match buildUrl c urlArgs with
  | none => .error "TypeError: Invalid URL"
  | some url =>
    if numCfg = 1 then
      .ok (applyConfigDefaults url defaultMethod .null .null
        (configOrEmpty (resolved.getD 0 .undef)))
    else if numCfg = 2 then
      match getMethodString (configOrEmpty (resolved.getD 1 .undef)) defaultMethod with
      | .error e => .error e
      | .ok meth =>
        if isNil (resolved.getD 0 .undef) then
          .ok (applyConfigDefaults url defaultMethod .null .null
            (configOrEmpty (resolved.getD 1 .undef)))
        else if isBodyMethod meth then
          .ok (applyConfigDefaults url defaultMethod (resolved.getD 0 .undef) .null
            (configOrEmpty (resolved.getD 1 .undef)))
        else
          .ok (applyConfigDefaults url defaultMethod .null (resolved.getD 0 .undef)
            (configOrEmpty (resolved.getD 1 .undef)))
    else
      .ok (applyConfigDefaults url defaultMethod
        (if isNil (resolved.getD 1 .undef) then .null else resolved.getD 1 .undef)
        (if isNil (resolved.getD 0 .undef) then .null else resolved.getD 0 .undef)
        (assignFresh (resolved.drop 2)))

/-- Method `ApiClient._parseArgs(...args, defaultMethod)` (src/lib/EntityCrudApi.js
lines 169-226): split the arguments into the maximal trailing run of
plain-object-or-nil config arguments and the URL-slug arguments before
them, deep-resolve the config arguments, then continue as
`parseArgsResolved`.  A rejection inside the config arguments rejects the
whole call before the URL is built. -/
def parseArgs (c : ApiClient) (args : List JSValue) (defaultMethod : String) :
    Except String JSValue :=
  match deepResolveList (takeRightWhile isConfigArg args) with
  | .error e => .error e
  | .ok resolved =>
    parseArgsResolved c
      (args.take (args.length - (takeRightWhile isConfigArg args).length))
      (takeRightWhile isConfigArg args).length resolved defaultMethod

/-- The tag of a function value (used to look up the behaviour of the
pagination callback in the environment). -/
def funcTag : JSValue → Nat
  | .func t => t
  | _ => 0

/-- The recursive `paginationRequest` inside `_request`
(src/lib/EntityCrudApi.js lines 265-275), with an explicit accumulator
for the ordered response bodies and a log of issued request configs.
`pagEnv tag cnt data cfg` is the behaviour of the pagination callback at its
`cnt`-th invocation (the counter models a stateful JS closure).  `fuel`
bounds the recursion because the source can loop: NOTE the recursive
call on line 272 passes `config` — the descriptor just issued — and not
the freshly computed `nextConfig`, which is only tested for nil-ness. -/
def paginationLoop (axiosFn : JSValue → Except String JSValue)
    (pagEnv : Nat → Nat → JSValue → JSValue → JSValue) (tag : Nat) :
    Nat → Nat → JSValue → List JSValue →
    Except String (List JSValue) × List JSValue
  | 0, _, _, _ => (.error "model fuel exhausted", [])
  | fuel + 1, cnt, cfg, acc =>
    match axiosFn cfg with
    | .error e => (.error e, [cfg])
    | .ok resp =>
      let prd := jsGet resp "data"
      if isNil (pagEnv tag cnt prd cfg) then (.ok (acc ++ [prd]), [cfg])
      else
        match paginationLoop axiosFn pagEnv tag fuel (cnt + 1) cfg (acc ++ [prd]) with
        | (res, issued) => (res, cfg :: issued)

/-- Method `ApiClient._request(...args, method)` (src/lib/EntityCrudApi.js lines
237-289): parse the arguments, apply the form-data step, authenticate,
issue the request through `axiosFn`, and when the config carries a
pagination callback drive the pagination loop, returning the ordered
array of response bodies; without one, return the single response body.
The second component is the ordered list of configs handed to the
transport. -/
def requestRun (c : ApiClient) (axiosFn : JSValue → Except String JSValue)
    (pagEnv : Nat → Nat → JSValue → JSValue → JSValue) (fuel : Nat)
    (args : List JSValue) (method : String) :
    Except String JSValue × List JSValue :=
  match parseArgs c args method with
  | .error e => (.error e, [])
  | .ok config0 =>
    let config := authenticate c (applyFormData config0)
    match axiosFn config with
    | .error e => (.error e, [config])
    | .ok response =>
      let responseData := jsGet response "data"
      if isNil (jsGet config "paginationCallback") then
        (.ok responseData, [config])
      else if isNil (pagEnv (funcTag (jsGet config "paginationCallback")) 0
          responseData config) then
        (.ok (.arr [responseData]), [config])
      else
        match paginationLoop axiosFn pagEnv
            (funcTag (jsGet config "paginationCallback")) fuel 1
            (pagEnv (funcTag (jsGet config "paginationCallback")) 0
              responseData config) [responseData] with
        | (.error e, issued) => (.error e, config :: issued)
        | (.ok bodies, issued) => (.ok (.arr bodies), config :: issued)

/-- The `EntityCrudApi` instance state (src/lib/EntityCrudApi.js lines
3-7). -/
structure EntityCrudApi where
  apiClient : ApiClient
  entityUrlBasePathname : JSValue

/-- Method `EntityCrudApi._resolveUrlSlug(id)` (src/lib/EntityCrudApi.js lines
9-18), exactly as written: when the id is nil the result is
`[basePathname, id]`, otherwise `[basePathname]` — the id is dropped when
it is supplied. -/
def EntityCrudApi.resolveUrlSlug (e : EntityCrudApi) (id : JSValue) :
    List JSValue :=
  if isNil id then [e.entityUrlBasePathname, id] else [e.entityUrlBasePathname]

/-- Method `EntityCrudApi.read(id, params, config)` (src/lib/EntityCrudApi.js
lines 32-36): `apiClient._get(this._resolveUrlSlug(id), params, config)`,
where `_get` spreads its arguments into `_request` with default method
`get`. -/
def EntityCrudApi.read (e : EntityCrudApi)
    (axiosFn : JSValue → Except String JSValue)
    (pagEnv : Nat → Nat → JSValue → JSValue → JSValue) (fuel : Nat)
    (id params config : JSValue) : Except String JSValue × List JSValue :=
  requestRun e.apiClient axiosFn pagEnv fuel
    [.arr (e.resolveUrlSlug id), params, config] "get"

/-- A concrete client used by the witness and counterexample scenarios:
base URL components `https:` // `host` : `443` / `/api/`, no callback, no
credentials. -/
def clientW : ApiClient :=
  { protocol := "https:", hostname := "host", port := 443, basePath := "/api/",
    authCallback := none, credentials := [] }

/-- A transport oracle answering every request with body `"r"`. -/
def axiosW : JSValue → Except String JSValue :=
  fun _ => .ok (.obj [("data", .str "r")])

/-- A pagination environment that always stops. -/
def pagNone : Nat → Nat → JSValue → JSValue → JSValue := fun _ _ _ _ => .null

/-- A CRUD facade over `clientW` with resource base path `widgets`. -/
def entityW : EntityCrudApi :=
  { apiClient := clientW, entityUrlBasePathname := .str "widgets" }

/-- The descriptor the pagination continuation returns for the first
response in the C3 scenario. -/
def cfgB : JSValue :=
  .obj [("url", .str "https://host/api/p2"), ("method", .str "get")]

/-- The descriptor the pagination continuation returns for the second
response in the C3 scenario. -/
def cfgC : JSValue :=
  .obj [("url", .str "https://host/api/p3"), ("method", .str "get")]

/-- The stateful pagination continuation of the C3 scenario: `cfgB` at its
first invocation, `cfgC` at its second, nil afterwards. -/
def pagC3 : Nat → Nat → JSValue → JSValue → JSValue := fun _ cnt _ _ =>
  if cnt = 0 then cfgB else if cnt = 1 then cfgC else .null

/-- C4 counterexample config: content-type header value differing from
`multipart/form-data` only in letter case, with plain-object body data. -/
def cexC4 : JSValue :=
  .obj [("headers", .obj [("content-type", .str "MULTIPART/FORM-DATA")]),
        ("data", .obj [("a", .num 1)])]

/-- C4 witness config: a content-Type header (name in mixed case) whose
value is exactly `multipart/form-data`, with plain-object body data. -/
def trigC4 : JSValue :=
  .obj [("headers", .obj [("Content-Type", .str "multipart/form-data")]),
        ("data", .obj [("a", .arr [])])]

mutual
/-- A rejection reachable in the object/array structure makes the resolver
reject with that failure. -/
theorem deepResolve_err : ∀ (v : JSValue) (e : String),
    firstRejection v = some e → deepResolve v = .error e
  | .obj fs, e, h => by
    have hf : firstRejectionFields fs = some e := by simpa [firstRejection] using h
    simp [deepResolve, Except.map, deepResolveFields_err fs e hf]
  | .arr xs, e, h => by
    have hl : firstRejectionList xs = some e := by simpa [firstRejection] using h
    simp [deepResolve, Except.map, deepResolveList_err xs e hl]
  | .promiseErr e2, e, h => by
    have : e2 = e := by simpa [firstRejection] using h
    subst this
    rfl
  | .null, e, h => by simp [firstRejection] at h
  | .undef, e, h => by simp [firstRejection] at h
  | .bool b, e, h => by simp [firstRejection] at h
  | .num n, e, h => by simp [firstRejection] at h
  | .str s, e, h => by simp [firstRejection] at h
  | .date iso, e, h => by simp [firstRejection] at h
  | .formData es, e, h => by simp [firstRejection] at h
  | .promiseOk v, e, h => by simp [firstRejection] at h
  | .func t, e, h => by simp [firstRejection] at h

/-- Lemma `deepResolve_err` over object fields. -/
theorem deepResolveFields_err : ∀ (l : List (String × JSValue)) (e : String),
    firstRejectionFields l = some e → deepResolveFields l = .error e
  | [], e, h => by simp [firstRejectionFields] at h
  | (k, v) :: rest, e, h => by
    rcases hv : firstRejection v with _ | e2
    · have hr : firstRejectionFields rest = some e := by
        simpa [firstRejectionFields, hv] using h
      obtain ⟨w, hw⟩ := deepResolve_ok v hv
      simp [deepResolveFields, hw, deepResolveFields_err rest e hr]
    · have he2 : e2 = e := by simpa [firstRejectionFields, hv] using h
      subst he2
      simp [deepResolveFields, deepResolve_err v e2 hv]

/-- Lemma `deepResolve_err` over array elements. -/
theorem deepResolveList_err : ∀ (l : List JSValue) (e : String),
    firstRejectionList l = some e → deepResolveList l = .error e
  | [], e, h => by simp [firstRejectionList] at h
  | v :: rest, e, h => by
    rcases hv : firstRejection v with _ | e2
    · have hr : firstRejectionList rest = some e := by
        simpa [firstRejectionList, hv] using h
      obtain ⟨w, hw⟩ := deepResolve_ok v hv
      simp [deepResolveList, hw, deepResolveList_err rest e hr]
    · have he2 : e2 = e := by simpa [firstRejectionList, hv] using h
      subst he2
      simp [deepResolveList, deepResolve_err v e2 hv]

/-- With no reachable rejection the resolver fulfils. -/
theorem deepResolve_ok : ∀ (v : JSValue), firstRejection v = none →
    ∃ w, deepResolve v = .ok w
  | .obj fs, h => by
    obtain ⟨ws, hws⟩ := deepResolveFields_ok fs (by simpa [firstRejection] using h)
    exact ⟨.obj ws, by simp [deepResolve, Except.map, hws]⟩
  | .arr xs, h => by
    obtain ⟨ws, hws⟩ := deepResolveList_ok xs (by simpa [firstRejection] using h)
    exact ⟨.arr ws, by simp [deepResolve, Except.map, hws]⟩
  | .promiseOk v, _ => ⟨v, rfl⟩
  | .promiseErr e, h => by simp [firstRejection] at h
  | .null, _ => ⟨_, rfl⟩
  | .undef, _ => ⟨_, rfl⟩
  | .bool b, _ => ⟨_, rfl⟩
  | .num n, _ => ⟨_, rfl⟩
  | .str s, _ => ⟨_, rfl⟩
  | .date iso, _ => ⟨_, rfl⟩
  | .formData es, _ => ⟨_, rfl⟩
  | .func t, _ => ⟨_, rfl⟩

/-- Lemma `deepResolve_ok` over object fields. -/
theorem deepResolveFields_ok : ∀ (l : List (String × JSValue)),
    firstRejectionFields l = none → ∃ ws, deepResolveFields l = .ok ws
  | [], _ => ⟨[], rfl⟩
  | (k, v) :: rest, h => by
    rcases hv : firstRejection v with _ | e2
    · have hr : firstRejectionFields rest = none := by
        simpa [firstRejectionFields, hv] using h
      obtain ⟨w, hw⟩ := deepResolve_ok v hv
      obtain ⟨ws, hws⟩ := deepResolveFields_ok rest hr
      exact ⟨(k, w) :: ws, by simp [deepResolveFields, hw, hws]⟩
    · exact absurd h (by simp [firstRejectionFields, hv])

/-- Lemma `deepResolve_ok` over array elements. -/
theorem deepResolveList_ok : ∀ (l : List JSValue),
    firstRejectionList l = none → ∃ ws, deepResolveList l = .ok ws
  | [], _ => ⟨[], rfl⟩
  | v :: rest, h => by
    rcases hv : firstRejection v with _ | e2
    · have hr : firstRejectionList rest = none := by
        simpa [firstRejectionList, hv] using h
      obtain ⟨w, hw⟩ := deepResolve_ok v hv
      obtain ⟨ws, hws⟩ := deepResolveList_ok rest hr
      exact ⟨w :: ws, by simp [deepResolveList, hw, hws]⟩
    · exact absurd h (by simp [firstRejectionList, hv])
end

/-- Function `takeWhile` keeps a fully satisfying prefix and continues behind it. -/
theorem takeWhile_append_all (p : JSValue → Bool) (l₁ l₂ : List JSValue)
    (h : ∀ a ∈ l₁, p a = true) :
    (l₁ ++ l₂).takeWhile p = l₁ ++ l₂.takeWhile p := by
  induction l₁ with
  | nil => simp
  | cons a t ih =>
    have ha := h a (List.mem_cons_self a t)
    simp [List.takeWhile_cons, ha, ih (fun b hb => h b (List.mem_cons_of_mem a hb))]

/-- lodash `_.takeRightWhile` of a split list whose right part fully satisfies
the predicate and whose left part ends in a failing element is exactly
the right part. -/
theorem takeRightWhile_append (p : JSValue → Bool) (xs ys : List JSValue)
    (hys : ∀ y ∈ ys, p y = true)
    (hxs : ∀ x, xs.getLast? = some x → p x = false) :
    takeRightWhile p (xs ++ ys) = ys := by
  unfold takeRightWhile
  rw [List.reverse_append,
    takeWhile_append_all p ys.reverse xs.reverse
      (fun a ha => hys a (List.mem_reverse.mp ha))]
  cases hrev : xs.reverse with
  | nil => simp
  | cons a t =>
    have hx : xs.getLast? = some a := by
      rw [← List.head?_reverse, hrev]
      rfl
    have hpa : p a = false := hxs a hx
    simp [List.takeWhile_cons, hpa]

/-- Method `_parseArgs` on arguments splitting into URL slugs followed by a
maximal trailing config run: a rejection in the config run rejects the
parse. -/
theorem parseArgs_split_err (c : ApiClient) (xs ys : List JSValue) (m e : String)
    (hys : ∀ y ∈ ys, isConfigArg y = true)
    (hxs : ∀ x, xs.getLast? = some x → isConfigArg x = false)
    (hres : deepResolveList ys = .error e) :
    parseArgs c (xs ++ ys) m = .error e := by
  unfold parseArgs
  rw [takeRightWhile_append isConfigArg xs ys hys hxs, hres]

/-- Method `_parseArgs` on arguments splitting into URL slugs followed by a
maximal trailing config run reduces to `parseArgsResolved` on the two
parts. -/
theorem parseArgs_split_ok (c : ApiClient) (xs ys : List JSValue) (m : String)
    (resolved : List JSValue)
    (hys : ∀ y ∈ ys, isConfigArg y = true)
    (hxs : ∀ x, xs.getLast? = some x → isConfigArg x = false)
    (hres : deepResolveList ys = .ok resolved) :
    parseArgs c (xs ++ ys) m = parseArgsResolved c xs ys.length resolved m := by
  unfold parseArgs
  rw [takeRightWhile_append isConfigArg xs ys hys hxs, hres]
  simp [List.length_append]

/-- Looking up the key just set. -/
theorem getKey_setKey_same (fs : List (String × JSValue)) (k : String) (v : JSValue) :
    getKey (setKey fs k v) k = some v := by
  induction fs with
  | nil => simp [setKey, getKey]
  | cons p rest ih =>
    obtain ⟨k2, w⟩ := p
    by_cases h : k2 = k
    · simp [setKey, h, getKey]
    · simp [setKey, h, getKey, ih]

/-- Setting one key leaves other lookups unchanged. -/
theorem getKey_setKey_ne (fs : List (String × JSValue)) (k k2 : String) (v : JSValue)
    (h : k2 ≠ k) : getKey (setKey fs k v) k2 = getKey fs k2 := by
  induction fs with
  | nil =>
    simp [setKey, getKey]
    intro hh
    exact absurd hh.symm h
  | cons p rest ih =>
    obtain ⟨k3, w⟩ := p
    by_cases h3 : k3 = k
    · have hne : ¬ k3 = k2 := fun hh => h (hh.symm.trans h3)
      simp [setKey, h3, getKey, hne, h, Ne.symm h]
    · by_cases h4 : k3 = k2 <;> simp [setKey, h3, getKey, h4, ih, h, Ne.symm h]

/-- A lookup missing on the left of an append continues on the right. -/
theorem getKey_append_none (fs gs : List (String × JSValue)) (k : String)
    (h : getKey fs k = none) : getKey (fs ++ gs) k = getKey gs k := by
  induction fs with
  | nil => simp
  | cons p rest ih =>
    obtain ⟨k2, w⟩ := p
    by_cases h2 : k2 = k
    · simp [getKey, h2] at h
    · simp [getKey, h2] at h ⊢
      exact ih h

/-- A lookup found on the left of an append is unchanged by it. -/
theorem getKey_append_some (fs gs : List (String × JSValue)) (k : String) (v : JSValue)
    (h : getKey fs k = some v) : getKey (fs ++ gs) k = some v := by
  induction fs with
  | nil => simp [getKey] at h
  | cons p rest ih =>
    obtain ⟨k2, w⟩ := p
    by_cases h2 : k2 = k
    · simp [getKey, h2] at h ⊢
      exact h
    · simp [getKey, h2] at h ⊢
      exact ih h

/-- lodash `_.defaults` never overwrites an existing non-undefined value. -/
theorem defaultsFields_preserves (src : List (String × JSValue)) :
    ∀ (fs : List (String × JSValue)) (k : String) (v : JSValue),
      v ≠ .undef → getKey fs k = some v →
      getKey (defaultsFields fs src) k = some v := by
  induction src with
  | nil =>
    intro fs k v _ h
    simpa [defaultsFields] using h
  | cons q rest ih =>
    intro fs k v hv h
    obtain ⟨k2, w⟩ := q
    rcases hg : getKey fs k2 with _ | u
    · by_cases hk : k2 = k
      · subst hk
        rw [hg] at h
        cases h
      · simp only [defaultsFields, hg]
        exact ih _ k v hv (getKey_append_some fs [(k2, w)] k v h)
    · by_cases hu : isUndef u = true
      · by_cases hk : k2 = k
        · subst hk
          rw [hg] at h
          injection h with h2
          subst h2
          exact absurd (show u = JSValue.undef by cases u <;> simp_all [isUndef]) hv
        · simp only [defaultsFields, hg, hu, if_true]
          exact ih _ k v hv
            ((getKey_setKey_ne fs k2 k w (fun hh => hk hh.symm)).trans h)
      · simp only [defaultsFields, hg, hu, Bool.false_eq_true, if_false]
        exact ih _ k v hv h

/-- On a key the destination lacks, `_.defaults` produces exactly the
binding of the source for that key (source values non-undefined). -/
theorem defaultsFields_missing (src : List (String × JSValue)) :
    ∀ (fs : List (String × JSValue)) (k : String),
      getKey fs k = none → (∀ q ∈ src, q.2 ≠ JSValue.undef) →
      getKey (defaultsFields fs src) k = getKey src k := by
  induction src with
  | nil =>
    intro fs k h _
    simpa [defaultsFields, getKey] using h
  | cons q rest ih =>
    intro fs k h hsrc
    obtain ⟨k2, w⟩ := q
    have hw : w ≠ JSValue.undef := hsrc (k2, w) (List.mem_cons_self _ _)
    have hrest : ∀ q ∈ rest, q.2 ≠ JSValue.undef :=
      fun q hq => hsrc q (List.mem_cons_of_mem _ hq)
    by_cases hk : k2 = k
    · subst hk
      simp only [defaultsFields, h]
      have hfound : getKey (fs ++ [(k2, w)]) k2 = some w := by
        rw [getKey_append_none fs _ k2 h]
        simp [getKey]
      rw [defaultsFields_preserves rest _ k2 w hw hfound]
      simp [getKey]
    · rcases hg : getKey fs k2 with _ | u
      · simp only [defaultsFields, hg]
        have h2 : getKey (fs ++ [(k2, w)]) k = none := by
          rw [getKey_append_none fs _ k h]
          simp [getKey, hk]
        rw [ih _ k h2 hrest]
        simp [getKey, hk]
      · by_cases hu : isUndef u = true
        · simp only [defaultsFields, hg, hu, if_true]
          have h2 : getKey (setKey fs k2 w) k = getKey fs k :=
            getKey_setKey_ne fs k2 k w (fun hh => hk hh.symm)
          rw [ih _ k (h2.trans h) hrest]
          simp [getKey, hk]
        · simp only [defaultsFields, hg, hu, Bool.false_eq_true, if_false]
          rw [ih _ k h hrest]
          simp [getKey, hk]

/-- Lemma `defaultsFields_missing` at the concrete four-key defaults object of
`_parseArgs` (whose url and method values are strings and whose data and
params values are non-undefined). -/
theorem defaults4_missing (fs : List (String × JSValue)) (u m : String)
    (d p : JSValue) (hd : d ≠ JSValue.undef) (hp : p ≠ JSValue.undef) (k : String)
    (hk : getKey fs k = none) :
    getKey (defaultsFields fs
      [("url", .str u), ("method", .str m), ("data", d), ("params", p)]) k =
    getKey [("url", JSValue.str u), ("method", JSValue.str m),
            ("data", d), ("params", p)] k := by
  refine defaultsFields_missing _ fs k hk ?_
  intro q hq
  simp only [List.mem_cons, List.not_mem_nil, or_false] at hq
  rcases hq with rfl | rfl | rfl | rfl
  · exact fun hh => JSValue.noConfusion hh
  · exact fun hh => JSValue.noConfusion hh
  · exact hd
  · exact hp

theorem parseArgs_two_core (c : ApiClient) (xs : List JSValue)
    (a1 a2 : List (String × JSValue)) (m u em : String)
    (hxs : ∀ x, xs.getLast? = some x → isConfigArg x = false)
    (h1 : deepResolve (.obj a1) = .ok (.obj a1))
    (h2 : deepResolve (.obj a2) = .ok (.obj a2))
    (hurl : buildUrl c xs = some u)
    (hm : getMethodString (.obj a2) m = .ok em) :
    parseArgs c (xs ++ [.obj a1, .obj a2]) m = .ok (.obj (defaultsFields a2
      [("url", .str u), ("method", .str m),
       ("data", if isBodyMethod em then .obj a1 else .null),
       ("params", if isBodyMethod em then .null else .obj a1)])) := by
  have hys : ∀ y ∈ [JSValue.obj a1, JSValue.obj a2], isConfigArg y = true := by
    intro y hy
    simp only [List.mem_cons, List.not_mem_nil, or_false] at hy
    rcases hy with rfl | rfl <;> rfl
  have hres : deepResolveList [JSValue.obj a1, JSValue.obj a2] =
      .ok [.obj a1, .obj a2] := by
    simp [deepResolveList, h1, h2]
  rw [parseArgs_split_ok c xs _ m _ hys hxs hres]
  unfold parseArgsResolved
  rw [hurl]
  simp only [List.length_cons, List.length_nil, Nat.zero_add, Nat.reduceAdd,
    List.getD, List.get?, Option.getD_some]
  norm_num
  rw [show configOrEmpty (JSValue.obj a2) = JSValue.obj a2 from rfl]
  rw [hm]
  rw [show isNil (JSValue.obj a1) = false from rfl]
  by_cases hb : isBodyMethod em
  · simp only [hb, if_true, Bool.false_eq_true, if_false]
    rfl
  · simp only [hb, Bool.false_eq_true, if_false, if_true]
    rfl

theorem parseArgs_one_core (c : ApiClient) (xs : List JSValue)
    (o : List (String × JSValue)) (m u : String)
    (hxs : ∀ x, xs.getLast? = some x → isConfigArg x = false)
    (h1 : deepResolve (.obj o) = .ok (.obj o))
    (hurl : buildUrl c xs = some u) :
    parseArgs c (xs ++ [.obj o]) m = .ok (.obj (defaultsFields o
      [("url", .str u), ("method", .str m), ("data", .null), ("params", .null)])) := by
  have hys : ∀ y ∈ [JSValue.obj o], isConfigArg y = true := by
    intro y hy
    simp only [List.mem_cons, List.not_mem_nil, or_false] at hy
    rcases hy with rfl
    rfl
  have hres : deepResolveList [JSValue.obj o] = .ok [.obj o] := by
    simp [deepResolveList, h1]
  rw [parseArgs_split_ok c xs _ m _ hys hxs hres]
  unfold parseArgsResolved
  rw [hurl]
  rfl

/-- Claim C1 (code bug): for a client configured with an external
authentication callback that is a plain function (no own enumerable
properties) and bearer-token credentials, `_authenticate` does not invoke
the callback — whatever its body `f` — and instead applies the internal
bearer-token logic, because `_.isEmpty` is true for every plain function. -/
theorem C1_authCallback_never_invoked :
    (∀ f : JSValue → JSValue,
      authenticate { protocol := "https:", hostname := "host", port := 443,
                     basePath := "/api/",
                     authCallback := some { ownKeys := [], run := f },
                     credentials := [("token", .str "t")] } (.obj []) =
        .obj [("headers", .obj [("Authorization", .str "Bearer t")])])
    ∧ (∀ f : JSValue → JSValue,
      authenticate { protocol := "https:", hostname := "host", port := 443,
                     basePath := "/api/",
                     authCallback := some { ownKeys := ["marker"], run := f },
                     credentials := [("token", .str "t")] } (.obj []) =
        f (.obj [])) :=
  ⟨fun _ => rfl, fun _ => rfl⟩

/-- Claim C2 (code bug): `read` with the supplied id `"7"` over base path
`widgets` issues a single GET whose url is the base path alone —
`https://host/api/widgets` — and the character 7 does not occur in that
url at all, so the id is not a final path segment. -/
theorem C2_read_drops_id :
    entityW.read axiosW pagNone 5 (.str "7") .undef .undef =
      (.ok (.str "r"),
       [.obj [("url", .str "https://host/api/widgets"), ("method", .str "get"),
              ("data", .null), ("params", .null)]])
    ∧ ("https://host/api/widgets".data.contains '7') = false :=
  ⟨rfl, by decide⟩

/-- Claim C3 (code bug): with a pagination continuation returning `cfgB`
for the first response, `cfgC` for the second and nil for the third, the
executor issues the initial config, then `cfgB`, then `cfgB` again: the
third request repeats the descriptor of the second request even though the
continuation returned `cfgC` for the second response (and `cfgB` and
`cfgC` differ in their url). -/
theorem C3_pagination_reissues_same_config :
    requestRun clientW axiosW pagC3 9 [.obj [("paginationCallback", .func 0)]] "get" =
      (.ok (.arr [.str "r", .str "r", .str "r"]),
       [.obj [("paginationCallback", .func 0), ("url", .str "https://host/api/"),
              ("method", .str "get"), ("data", .null), ("params", .null)],
        cfgB, cfgB])
    ∧ pagC3 0 1 (.str "r") cfgB = cfgC
    ∧ jsGet cfgB "url" ≠ jsGet cfgC "url" := by
  refine ⟨rfl, rfl, ?_⟩
  intro h
  rw [show jsGet cfgB "url" = .str "https://host/api/p2" from rfl,
      show jsGet cfgC "url" = .str "https://host/api/p3" from rfl] at h
  injection h with h2
  exact absurd h2 (by decide)

/-- Claim C4 counterexample: a config whose content-type header value
equals `multipart/form-data` only case-insensitively (not exactly), with
plain-object body data present and not a FormData instance — the
claimed trigger condition holds, yet `_request` leaves the config
untouched: no serialization happens. -/
theorem C4_counterexample :
    applyFormData cexC4 = cexC4
    ∧ contentTypeHeaderValue cexC4 = .str "MULTIPART/FORM-DATA"
    ∧ asciiLower "MULTIPART/FORM-DATA" = "multipart/form-data"
    ∧ isNil (jsGet cexC4 "data") = false
    ∧ isFormDataInstance (jsGet cexC4 "data") = false :=
  ⟨rfl, rfl, rfl, rfl, rfl⟩

/-- Claim C4 (amended): the body is replaced by its form-data
serialization exactly when the first config header whose name
case-insensitively equals content-type (the one `_.find` over the header
keys picks) has the value exactly (case-sensitively)
`multipart/form-data`, body data is present, and the data is not already
a FormData instance.  The four conjuncts settle both directions of the
if-and-only-if: (1) under all three conditions the data field becomes the
freshly serialized FormData; and no serialization happens when any
condition fails — (2) when the value test fails the whole config passes
through unchanged, (3) likewise when body data is absent, and (4) when
the data is already a FormData instance its entries survive verbatim in
the data field (only the boundary headers are merged into the config). -/
theorem C4_formdata_trigger :
    (∀ fs : List (String × JSValue),
      isMultipartValue (contentTypeHeaderValue (.obj fs)) = true →
      isNil (jsGet (.obj fs) "data") = false →
      isFormDataInstance (jsGet (.obj fs) "data") = false →
      jsGet (applyFormData (.obj fs)) "data" =
        .formData (serializeObjectToFormData (jsGet (.obj fs) "data") [] ""))
    ∧ (∀ config : JSValue,
      isMultipartValue (contentTypeHeaderValue config) = false →
      applyFormData config = config)
    ∧ (∀ config : JSValue,
      isNil (jsGet config "data") = true →
      applyFormData config = config)
    ∧ (∀ (fs es : List (String × JSValue)),
      jsGet (.obj fs) "data" = .formData es →
      jsGet (applyFormData (.obj fs)) "data" = .formData es) := by
  refine ⟨?_, ?_, ?_, ?_⟩
  · intro fs h1 h2 h3
    rcases hd : jsGet (JSValue.obj fs) "data" with
      _ | _ | b | n | s | iso | xs | ofs | es | pv | pe | t <;>
      simp_all [applyFormData, setKeyJS, jsGet, isFormDataInstance,
        getKey_setKey_same, getKey_setKey_ne]
  · intro config h
    simp [applyFormData, h]
  · intro config h
    simp [applyFormData, h]
  · intro fs es hd
    have hg : getKey fs "data" = some (.formData es) := by
      rcases hgk : getKey fs "data" with _ | w
      · simp [jsGet, hgk] at hd
      · simp [jsGet, hgk] at hd
        rw [hd]
    cases hA : isMultipartValue (contentTypeHeaderValue (JSValue.obj fs)) with
    | false =>
      have hun : applyFormData (JSValue.obj fs) = JSValue.obj fs := by
        simp [applyFormData, hA]
      rw [hun]
      exact hd
    | true =>
      simp [applyFormData, hA, hd, isNil, setKeyJS, jsGet, hg,
        getKey_setKey_ne]

/-- Claim C4 witness: at a config with a mixed-case `Content-Type` header
name and the exact value, present non-FormData data `{a: []}`, the data
is serialized to the single entry `a[]` with empty-string value. -/
theorem C4_witness :
    jsGet (applyFormData trigC4) "data" = .formData [("a[]", JSValue.str "")] := by
  have h := C4_formdata_trigger.1
    [("headers", .obj [("Content-Type", .str "multipart/form-data")]),
     ("data", .obj [("a", .arr [])])] rfl rfl rfl
  exact h.trans rfl

/-- Claim C5: with exactly two trailing config-object arguments (both
plain objects, already resolved), the second becomes the request config
(its keys surviving into the result), the routing method is the method
key of the config lower-cased with the default of the call as fallback, and the first
argument lands in `data` for put/post/patch and in `params` otherwise
(on the keys the config does not itself set). -/
theorem C5_two_config_args (c : ApiClient) (xs : List JSValue)
    (a1 a2 : List (String × JSValue)) (m u em : String)
    (hxs : ∀ x, xs.getLast? = some x → isConfigArg x = false)
    (h1 : deepResolve (.obj a1) = .ok (.obj a1))
    (h2 : deepResolve (.obj a2) = .ok (.obj a2))
    (hurl : buildUrl c xs = some u)
    (hm : getMethodString (.obj a2) m = .ok em) :
    ∃ cfg, parseArgs c (xs ++ [.obj a1, .obj a2]) m = .ok (.obj cfg)
      ∧ (∀ k v, getKey a2 k = some v → v ≠ .undef → getKey cfg k = some v)
      ∧ (isBodyMethod em = true → getKey a2 "data" = none →
          getKey cfg "data" = some (.obj a1))
      ∧ (isBodyMethod em = false → getKey a2 "params" = none →
          getKey cfg "params" = some (.obj a1)) := by
  refine ⟨_, parseArgs_two_core c xs a1 a2 m u em hxs h1 h2 hurl hm, ?_, ?_, ?_⟩
  · intro k v hk hv
    exact defaultsFields_preserves _ a2 k v hv hk
  · intro hb hnd
    rw [defaults4_missing a2 u m _ _ (by rw [hb]; exact fun hh => JSValue.noConfusion hh)
      (by rw [hb]; exact fun hh => JSValue.noConfusion hh) "data" hnd]
    simp [getKey, hb]
  · intro hb hnp
    rw [defaults4_missing a2 u m _ _ (by rw [hb]; exact fun hh => JSValue.noConfusion hh)
      (by rw [hb]; exact fun hh => JSValue.noConfusion hh) "params" hnp]
    simp [getKey, hb]

/-- Claim C5 witness: default method get, config `{method: POST}` as
second argument and `{q: 1}` as first — the first argument is routed to
`data`, not `params`. -/
theorem C5_witness :
    ∃ cfg, parseArgs clientW
        [.obj [("q", .str "1")], .obj [("method", .str "POST")]] "get" =
        .ok (.obj cfg)
      ∧ getKey cfg "data" = some (.obj [("q", .str "1")]) := by
  obtain ⟨cfg, hp, _, hdata, _⟩ :=
    C5_two_config_args clientW [] [("q", .str "1")] [("method", .str "POST")]
      "get" "https://host/api/" "post"
      (fun x hx => by simp at hx) rfl rfl rfl rfl
  exact ⟨cfg, by simpa using hp, hdata rfl rfl⟩

/-- Claim C6: with exactly one trailing config-object argument (a plain
object, already resolved), that object becomes the request config — its
own keys survive into the result — and the computed url, default method
and null data/params are filled in only for the keys it does not set. -/
theorem C6_one_config_arg (c : ApiClient) (xs : List JSValue)
    (o : List (String × JSValue)) (m u : String)
    (hxs : ∀ x, xs.getLast? = some x → isConfigArg x = false)
    (h1 : deepResolve (.obj o) = .ok (.obj o))
    (hurl : buildUrl c xs = some u) :
    ∃ cfg, parseArgs c (xs ++ [.obj o]) m = .ok (.obj cfg)
      ∧ (∀ k v, getKey o k = some v → v ≠ .undef → getKey cfg k = some v)
      ∧ (getKey o "url" = none → getKey cfg "url" = some (.str u))
      ∧ (getKey o "method" = none → getKey cfg "method" = some (.str m))
      ∧ (getKey o "data" = none → getKey cfg "data" = some .null)
      ∧ (getKey o "params" = none → getKey cfg "params" = some .null) := by
  have hnn : JSValue.null ≠ JSValue.undef := fun hh => JSValue.noConfusion hh
  refine ⟨_, parseArgs_one_core c xs o m u hxs h1 hurl, ?_, ?_, ?_, ?_, ?_⟩
  · intro k v hk hv
    exact defaultsFields_preserves _ o k v hv hk
  · intro hmiss
    rw [defaults4_missing o u m _ _ hnn hnn "url" hmiss]
    simp [getKey]
  · intro hmiss
    rw [defaults4_missing o u m _ _ hnn hnn "method" hmiss]
    simp [getKey]
  · intro hmiss
    rw [defaults4_missing o u m _ _ hnn hnn "data" hmiss]
    simp [getKey]
  · intro hmiss
    rw [defaults4_missing o u m _ _ hnn hnn "params" hmiss]
    simp [getKey]

/-- Claim C6 witness: the single config `{method: PATCH, x: y}` keeps its
own keys and gets the computed url filled in. -/
theorem C6_witness :
    ∃ cfg, parseArgs clientW
        [.obj [("method", .str "PATCH"), ("x", .str "y")]] "get" = .ok (.obj cfg)
      ∧ getKey cfg "method" = some (.str "PATCH")
      ∧ getKey cfg "x" = some (.str "y")
      ∧ getKey cfg "url" = some (.str "https://host/api/") := by
  obtain ⟨cfg, hp, hpres, hurl, _, _, _⟩ :=
    C6_one_config_arg clientW [] [("method", .str "PATCH"), ("x", .str "y")]
      "get" "https://host/api/"
      (fun x hx => by simp at hx) rfl rfl
  exact ⟨cfg, by simpa using hp,
    hpres "method" _ rfl (fun hh => JSValue.noConfusion hh),
    hpres "x" _ rfl (fun hh => JSValue.noConfusion hh),
    hurl rfl⟩

/-- Claim C7: serializing `{a: [1, 2], b: {c: true}}` with empty starting
key path and fresh accumulator produces exactly three entries in order:
`a[]` with 1, `a[]` with 2, and `bracketKey "b" "c"` — the string b, open
bracket, quote, c, quote, close bracket — with the string `"true"`. -/
theorem C7_serializer_example :
    serializeObjectToFormData
      (.obj [("a", .arr [.num 1, .num 2]), ("b", .obj [("c", .bool true)])]) [] "" =
      [("a[]", .num 1), ("a[]", .num 2), (bracketKey "b" "c", .str "true")] := rfl

/-- Claim C8 counterexample: at base components https, host, 443, /api/
and segments widgets, 42, the built URL is
`https://host/api/widgets/42` — not the claimed string with `:443`. -/
theorem C8_counterexample :
    buildUrl clientW [.str "widgets", .str "42"] = some "https://host/api/widgets/42"
    ∧ some "https://host/api/widgets/42" ≠ some "https://host:443/api/widgets/42" :=
  ⟨rfl, by decide⟩

/-- Claim C8 (amended): the built URL is `https://host/api/widgets/42`;
the WHATWG URL parser normalises the default https port 443 away, so the
serialised URL carries no port. -/
theorem C8_built_url :
    buildUrl clientW [.str "widgets", .str "42"] =
      some "https://host/api/widgets/42" := rfl

/-- Claim C9: a rejected promise nested (through plain objects and
arrays) inside the trailing config-object arguments makes the request
call reject with that same failure, and no request reaches the
transport. -/
theorem C9_rejection_propagates (c : ApiClient)
    (axiosFn : JSValue → Except String JSValue)
    (pagEnv : Nat → Nat → JSValue → JSValue → JSValue) (fuel : Nat)
    (xs ys : List JSValue) (m e : String)
    (hys : ∀ y ∈ ys, isConfigArg y = true)
    (hxs : ∀ x, xs.getLast? = some x → isConfigArg x = false)
    (hrej : firstRejectionList ys = some e) :
    requestRun c axiosFn pagEnv fuel (xs ++ ys) m = (.error e, []) := by
  have hp : parseArgs c (xs ++ ys) m = .error e :=
    parseArgs_split_err c xs ys m e hys hxs (deepResolveList_err ys e hrej)
  simp [requestRun, hp]

/-- Claim C9 witness: a config argument `{p: rejected("boom")}` makes the
call fail with boom and the transport log stay empty. -/
theorem C9_witness :
    requestRun clientW axiosW pagNone 1
      [.obj [("p", .promiseErr "boom")]] "get" = (.error "boom", []) := by
  have h := C9_rejection_propagates clientW axiosW pagNone 1 []
    [.obj [("p", .promiseErr "boom")]] "get" "boom"
    (fun y hy => by
      simp only [List.mem_cons, List.not_mem_nil, or_false] at hy
      subst hy
      rfl)
    (fun x hx => by simp at hx) rfl
  simpa using h

/-- Claim C10: the method stored in the parsed request descriptor is
never lower-cased: a config method `s` (for instance POST) survives
verbatim into the result, while the lower-cased form decides only the
data-versus-params routing of the first argument in the two-config case. -/
theorem C10_method_not_lowercased (c : ApiClient) (xs : List JSValue)
    (a1 a2 : List (String × JSValue)) (m u s : String)
    (hxs : ∀ x, xs.getLast? = some x → isConfigArg x = false)
    (h1 : deepResolve (.obj a1) = .ok (.obj a1))
    (h2 : deepResolve (.obj a2) = .ok (.obj a2))
    (hurl : buildUrl c xs = some u)
    (hms : getKey a2 "method" = some (.str s)) :
    ∃ cfg, parseArgs c (xs ++ [.obj a1, .obj a2]) m = .ok (.obj cfg)
      ∧ getKey cfg "method" = some (.str s)
      ∧ (isBodyMethod (asciiLower s) = true → getKey a2 "data" = none →
          getKey cfg "data" = some (.obj a1))
      ∧ (isBodyMethod (asciiLower s) = false → getKey a2 "params" = none →
          getKey cfg "params" = some (.obj a1)) := by
  have hm : getMethodString (.obj a2) m = .ok (asciiLower s) := by
    simp [getMethodString, jsGet, hms]
  refine ⟨_, parseArgs_two_core c xs a1 a2 m u (asciiLower s) hxs h1 h2 hurl hm,
    ?_, ?_, ?_⟩
  · exact defaultsFields_preserves _ a2 "method" (.str s)
      (fun hh => JSValue.noConfusion hh) hms
  · intro hb hnd
    rw [defaults4_missing a2 u m _ _ (by rw [hb]; exact fun hh => JSValue.noConfusion hh)
      (by rw [hb]; exact fun hh => JSValue.noConfusion hh) "data" hnd]
    simp [getKey, hb]
  · intro hb hnp
    rw [defaults4_missing a2 u m _ _ (by rw [hb]; exact fun hh => JSValue.noConfusion hh)
      (by rw [hb]; exact fun hh => JSValue.noConfusion hh) "params" hnp]
    simp [getKey, hb]

/-- Claim C10 witness: config method POST stays POST in the parsed
descriptor and still routes the first argument to data. -/
theorem C10_witness :
    ∃ cfg, parseArgs clientW
        [.obj [("q", .str "1")], .obj [("method", .str "POST")]] "POST" =
        .ok (.obj cfg)
      ∧ getKey cfg "method" = some (.str "POST")
      ∧ getKey cfg "data" = some (.obj [("q", .str "1")]) := by
  obtain ⟨cfg, hp, hmeth, hdata, _⟩ :=
    C10_method_not_lowercased clientW [] [("q", .str "1")] [("method", .str "POST")]
      "POST" "https://host/api/" "POST"
      (fun x hx => by simp at hx) rfl rfl rfl rfl
  exact ⟨cfg, by simpa using hp, hmeth, hdata rfl rfl⟩
